import Mathlib

/-!
Verification of the `MemoryManager` component
(`libs/agno/agno/memory/v2/manager.py`): a shallow embedding of its
prompt builder, tool registrar and the four orchestration entry points,
together with theorems about the behaviour the specification describes.

Python strings are embedded as `String`, machine lists as `List`, and
fallible calls (storage operations, the external model inference) as
`Except String` values whose `error` constructor stands for a raised
exception carrying its message.
-/

/-! ## A small theory of substring occurrence on lists

`OccursIn p s` says the block `p` occurs contiguously inside `s`.
It is used to state what the rendered system instruction does and does
not mention. -/

/-- The block `p` occurs contiguously inside `s`. -/
def OccursIn {α : Type} (p s : List α) : Prop :=
  ∃ a b, s = a ++ p ++ b

/-- Boolean test: `p` is an initial segment of `s`. -/
def frontB {α : Type} [DecidableEq α] : List α → List α → Bool
  | [], _ => true
  | _ :: _, [] => false
  | a :: as, b :: bs => decide (a = b) && frontB as bs

/-- Boolean test: `p` is a final segment of `s`. -/
def endB {α : Type} [DecidableEq α] (p s : List α) : Bool :=
  decide (p.length ≤ s.length) && decide (s.drop (s.length - p.length) = p)

/-- Boolean occurrence test behind `OccursIn`: try a match at every
position, walking down the list once. -/
def occLin {α : Type} [DecidableEq α] (p : List α) : List α → Bool
  | [] => frontB p []
  | c :: rest => frontB p (c :: rest) || occLin p rest

theorem frontB_iff {α : Type} [DecidableEq α] :
    ∀ (p s : List α), frontB p s = true ↔ ∃ r, s = p ++ r := by
  intro p
  induction p with
  | nil =>
    intro s
    simp [frontB]
  | cons a as ih =>
    intro s
    cases s with
    | nil =>
      simp [frontB]
    | cons b bs =>
      simp only [frontB, Bool.and_eq_true, decide_eq_true_eq, ih bs]
      constructor
      · rintro ⟨rfl, r, rfl⟩
        exact ⟨r, rfl⟩
      · rintro ⟨r, hr⟩
        cases hr
        exact ⟨rfl, r, rfl⟩

theorem endB_iff {α : Type} [DecidableEq α] (p s : List α) :
    endB p s = true ↔ ∃ w, s = w ++ p := by
  unfold endB
  simp only [Bool.and_eq_true, decide_eq_true_eq]
  constructor
  · rintro ⟨hle, hdrop⟩
    refine ⟨s.take (s.length - p.length), ?_⟩
    conv_lhs => rw [← List.take_append_drop (s.length - p.length) s, hdrop]
  · rintro ⟨w, rfl⟩
    have hlen : (w ++ p).length - p.length = w.length := by
      simp [List.length_append]
    constructor
    · simp [List.length_append]
    · rw [hlen, List.drop_left]

theorem occ_cons_iff {α : Type} {p : List α} {c : α} {rest : List α} :
    OccursIn p (c :: rest) ↔ (∃ r, c :: rest = p ++ r) ∨ OccursIn p rest := by
  constructor
  · rintro ⟨a, b, h⟩
    cases a with
    | nil =>
      exact Or.inl ⟨b, by simpa using h⟩
    | cons a0 as =>
      simp only [List.cons_append, List.append_assoc, List.cons.injEq] at h
      exact Or.inr ⟨as, b, by rw [h.2, List.append_assoc]⟩
  · rintro (⟨r, hr⟩ | ⟨a, b, hab⟩)
    · exact ⟨[], r, by simpa using hr⟩
    · exact ⟨c :: a, b, by simp [hab]⟩

theorem occLin_iff {α : Type} [DecidableEq α] (p : List α) :
    ∀ (s : List α), occLin p s = true ↔ OccursIn p s := by
  intro s
  induction s with
  | nil =>
    simp only [occLin, frontB_iff]
    constructor
    · rintro ⟨r, hr⟩
      exact ⟨[], r, by simpa using hr⟩
    · rintro ⟨a, b, hab⟩
      have : p = [] := by
        have hlen := congrArg List.length hab
        simp only [List.length_nil, List.length_append] at hlen
        exact List.eq_nil_of_length_eq_zero (by omega)
      exact ⟨[], by simp [this]⟩
  | cons c rest ih =>
    simp only [occLin, Bool.or_eq_true, frontB_iff, ih, occ_cons_iff]

instance {α : Type} [DecidableEq α] (p s : List α) : Decidable (OccursIn p s) :=
  decidable_of_iff _ (occLin_iff p s)

/-- Splitting an equation between two concatenations. -/
theorem app_eq_app {α : Type} :

    ∀ {a b c d : List α}, a ++ b = c ++ d →
      (∃ w, c = a ++ w ∧ b = w ++ d) ∨ (∃ w, a = c ++ w ∧ d = w ++ b) := by
  intro a
  induction a with
  | nil =>
    intro b c d h
    exact Or.inl ⟨c, rfl, h⟩
  | cons x xs ih =>
    intro b c d h
    cases c with
    | nil =>
      exact Or.inr ⟨x :: xs, rfl, h.symm⟩
    | cons y ys =>
      simp only [List.cons_append, List.cons.injEq] at h
      rcases h with ⟨rfl, h2⟩
      rcases ih h2 with ⟨w, hw1, hw2⟩ | ⟨w, hw1, hw2⟩
      · exact Or.inl ⟨w, by simp [hw1], hw2⟩
      · exact Or.inr ⟨w, by simp [hw1], hw2⟩

/-- An occurrence in `a ++ b` lies in `a`, lies in `b`, or spans the border. -/
theorem occ_split {α : Type} {p a b : List α} (h : OccursIn p (a ++ b)) :
    OccursIn p a ∨ OccursIn p b ∨
      ∃ x y, p = x ++ y ∧ x ≠ [] ∧ y ≠ [] ∧ (∃ w, a = w ++ x) ∧ ∃ w, b = y ++ w := by
  rcases h with ⟨u, v, huv⟩
  rw [List.append_assoc] at huv
  rcases app_eq_app huv with ⟨w, hw1, hw2⟩ | ⟨w, hw1, hw2⟩
  · exact Or.inr (Or.inl ⟨w, v, by rw [hw2]; simp [List.append_assoc]⟩)
  · rcases app_eq_app hw2.symm with ⟨z, hz1, hz2⟩ | ⟨z, hz1, hz2⟩
    · cases w with
      | nil =>
        refine Or.inr (Or.inl ⟨[], v, ?_⟩)
        simp only [List.nil_append] at hz1
        rw [hz2, ← hz1]
        simp
      | cons w0 ws =>
        cases z with
        | nil =>
          refine Or.inl ⟨u, [], ?_⟩
          simp only [List.append_nil] at hz1
          rw [hw1, ← hz1]
          simp
        | cons z0 zs =>
          refine Or.inr (Or.inr ⟨w0 :: ws, z0 :: zs, hz1, by simp, by simp,
            ⟨u, hw1⟩, ⟨v, hz2⟩⟩)
    · refine Or.inl ⟨u, z, ?_⟩
      rw [hw1, hz1]
      simp [List.append_assoc]

theorem occ_append_right {α : Type} {p b : List α} (a : List α) (h : OccursIn p b) :
    OccursIn p (a ++ b) := by
  rcases h with ⟨u, v, rfl⟩
  exact ⟨a ++ u, v, by simp [List.append_assoc]⟩

theorem occ_nil {α : Type} {p : List α} (h : OccursIn p []) : p = [] := by
  rcases h with ⟨a, b, hab⟩
  have hlen := congrArg List.length hab
  simp only [List.length_nil, List.length_append] at hlen
  exact List.eq_nil_of_length_eq_zero (by omega)

theorem not_occ_cons {α : Type} {p b : List α} {c : α}
    (hp : p ≠ []) (hc : c ∉ p) (hb : ¬ OccursIn p b) : ¬ OccursIn p (c :: b) := by
  rintro ⟨u, v, huv⟩
  cases u with
  | nil =>
    cases p with
    | nil => exact hp rfl
    | cons p0 ps =>
      simp only [List.nil_append, List.cons_append, List.cons.injEq] at huv
      exact hc (huv.1 ▸ List.mem_cons_self _ _)
  | cons u0 us =>
    simp only [List.cons_append, List.cons.injEq] at huv
    exact hb ⟨us, v, huv.2⟩

/-- No occurrence can cross a separator element that the block lacks. -/
theorem not_occ_append_cons {α : Type} {p a b : List α} {c : α}
    (hp : p ≠ []) (hc : c ∉ p) (ha : ¬ OccursIn p a) (hb : ¬ OccursIn p b) :
    ¬ OccursIn p (a ++ c :: b) := by
  intro h
  rcases occ_split h with h1 | h2 | ⟨x, y, hxy, _, hy, _, ⟨w, hw⟩⟩
  · exact ha h1
  · exact not_occ_cons hp hc hb h2
  · cases y with
    | nil => exact hy rfl
    | cons y0 ys =>
      simp only [List.cons_append, List.cons.injEq] at hw
      apply hc
      rw [hxy, hw.1]
      exact List.mem_append_right x (List.mem_cons_self _ _)

/-- Boolean check that no nonempty proper front of `p` is a final segment
of `a` (so no occurrence can start inside `a` and continue past it). -/
def spanListB {α : Type} [DecidableEq α] (a p : List α) : Bool :=
  (List.range (p.length + 1)).any
    (fun i => decide (0 < i) && decide (i < p.length) && endB (p.take i) a)

/-- If `p` occurs in neither part and cannot span out of `a`,
it does not occur in `a ++ b`. -/
theorem not_occ_append_of {α : Type} [DecidableEq α] {p a b : List α}
    (ha : ¬ OccursIn p a) (hb : ¬ OccursIn p b) (hs : spanListB a p = false) :
    ¬ OccursIn p (a ++ b) := by
  intro h
  rcases occ_split h with h1 | h2 | ⟨x, y, hxy, hx, hy, ⟨w, hw⟩, _⟩
  · exact ha h1
  · exact hb h2
  · have hibound : x.length < p.length := by
      rcases y with _ | ⟨y0, ys⟩
      · exact absurd rfl hy
      · rw [hxy]
        simp [List.length_append]
    have hxpos : 0 < x.length := by
      rcases x with _ | ⟨x0, xs⟩
      · exact absurd rfl hx
      · simp
    have htake : p.take x.length = x := by
      rw [hxy, List.take_left]
    have : spanListB a p = true := by
      unfold spanListB
      simp only [List.any_eq_true, List.mem_range, Bool.and_eq_true, decide_eq_true_eq]
      exact ⟨x.length, by omega, ⟨hxpos, hibound⟩, by rw [htake]; exact (endB_iff x a).2 ⟨w, hw⟩⟩
    rw [hs] at this
    exact Bool.false_ne_true this

/-- Python string join, `"sep".join(parts)`. -/
def joinWith (sep : String) : List String → String
  | [] => ""
  | [s] => s
  | s :: rest => s ++ sep ++ joinWith sep rest

theorem joinWith_cons_cons (sep : String) (s t : String) (rest : List String) :
    joinWith sep (s :: t :: rest) = s ++ sep ++ joinWith sep (t :: rest) := rfl

/-- A block without newlines that occurs in no line of a newline-join does
not occur in the join. -/
theorem not_occ_joinWith {p : List Char} (hp : p ≠ []) (hn : ('\n' : Char) ∉ p)
    (lines : List String) (h : ∀ l ∈ lines, ¬ OccursIn p l.data) :
    ¬ OccursIn p (joinWith "\n" lines).data := by
  induction lines with
  | nil =>
    intro hocc
    exact hp (occ_nil (by simpa [joinWith] using hocc))
  | cons s rest ih =>
    cases rest with
    | nil =>
      simpa [joinWith] using h s (by simp)
    | cons t rs =>
      rw [joinWith_cons_cons]
      have hdata : (s ++ "\n" ++ joinWith "\n" (t :: rs)).data
          = s.data ++ '\n' :: (joinWith "\n" (t :: rs)).data := by
        simp [String.data_append]
      rw [hdata]
      exact not_occ_append_cons hp hn (h s (by simp))
        (ih (fun l hl => h l (by simp [hl])))

/-- A join keeps any final run of its line list as a literal final segment. -/
theorem joinWith_append_sfx (sep : String) :
    ∀ (xs ys : List String), ys ≠ [] →
      ∃ q, joinWith sep (xs ++ ys) = q ++ joinWith sep ys := by
  intro xs
  induction xs with
  | nil =>
    intro ys _
    exact ⟨"", by simp [String.ext_iff, String.data_append]⟩
  | cons x xt ih =>
    intro ys hys
    rcases ih ys hys with ⟨q, hq⟩
    have hne : xt ++ ys ≠ [] := by
      intro hcon
      exact hys (List.append_eq_nil.mp hcon).2
    cases hxy : xt ++ ys with
    | nil => exact absurd hxy hne
    | cons z zs =>
      refine ⟨x ++ sep ++ q, ?_⟩
      have : joinWith sep (x :: (xt ++ ys)) = x ++ sep ++ joinWith sep (xt ++ ys) := by
        rw [hxy, joinWith_cons_cons]
      rw [List.cons_append, this, hq]
      simp [String.ext_iff, String.data_append, List.append_assoc]

/-! ## Data model

The collaborating classes (`Message`, `MemoryDb`, the model) live outside
this repository slice; they are modelled from the spec where noted.
Everything else is translated from
`libs/agno/agno/memory/v2/manager.py`. -/

/-- Modelled from the spec: a dialogue message is "a role
(user/assistant/system) and textual content" (the `Message` class is not
part of this slice). -/
structure Message where
  role : String
  content : String
deriving DecidableEq

/-- Modelled from the spec: `Message.get_content_string` yields the
message's textual content. -/
def Message.get_content_string (m : Message) : String := m.content

/-- One element of the `existing_memories` argument: a plain record with
the keys `memory_id` and `memory` read by `get_system_message`. -/
structure ExistingMemory where
  memory_id : String
  memory : String
deriving DecidableEq

/-- The `UserMemory` payload built inside `add_memory`/`update_memory`
(its `to_dict` serialisation is kept as the record itself).
`last_updated` stands for the `datetime.now()` timestamp. -/
structure UserMemory where
  memory_id : String
  memory : String
  topics : Option (List String)
  last_updated : Nat
  input : String
deriving DecidableEq

/-- The `MemoryRow` record handed to the storage backend. -/
structure MemoryRow where
  id : String
  user_id : String
  memory : UserMemory
  last_updated : Nat
deriving DecidableEq

/-- Modelled from the spec: the storage backend exposes
upsert/delete/clear; each call may fail, and `Except.error msg` stands
for a raised exception with message `msg`. -/
structure MemoryDb where
  upsert_memory : MemoryRow → Except String Unit
  delete_memory : String → Except String Unit
  clear : Unit → Except String Unit

/-- The row constructed inside `add_memory` (manager.py lines 292-305):
a fresh `memory_id` (the `uuid4()`), the caller's user id, and a
`UserMemory` carrying the memory text, topics, timestamp and the
synthetic input string. -/
def addRow (user_id input_string : String) (memory_id : String)
    (last_updated : Nat) (memory : String) (topics : Option (List String)) : MemoryRow :=
  ⟨memory_id, user_id, ⟨memory_id, memory, topics, last_updated, input_string⟩, last_updated⟩

/-- The row constructed inside `update_memory` (manager.py lines 322-335),
keyed by the caller-supplied `memory_id`. -/
def updateRow (user_id input_string : String) (memory_id : String)
    (last_updated : Nat) (memory : String) (topics : Option (List String)) : MemoryRow :=
  ⟨memory_id, user_id, ⟨memory_id, memory, topics, last_updated, input_string⟩, last_updated⟩

/-- Tool `add_memory` (manager.py lines 279-310). `memory_id` and
`last_updated` stand for the `uuid4()` and `datetime.now()` drawn inside
the call. The `try/except` catches any storage failure and renders it as
a result string, so the call itself never fails. -/
def add_memory (user_id : String) (db : MemoryDb) (input_string : String)
    (memory : String) (topics : Option (List String))
    (memory_id : String) (last_updated : Nat) : Except String String :=
  match db.upsert_memory (addRow user_id input_string memory_id last_updated memory topics) with
  | Except.ok _ => Except.ok "Memory added successfully"
  | Except.error e => Except.ok ("Error adding memory: " ++ e)

/-- Tool `update_memory` (manager.py lines 312-341). On a storage failure
the except branch of the source returns the add-variant error string
(sic, line 341). -/
def update_memory (user_id : String) (db : MemoryDb) (input_string : String)
    (memory_id : String) (memory : String) (topics : Option (List String))
    (last_updated : Nat) : Except String String :=
  match db.upsert_memory (updateRow user_id input_string memory_id last_updated memory topics) with
  | Except.ok _ => Except.ok "Memory updated successfully"
  | Except.error e => Except.ok ("Error adding memory: " ++ e)

/-- Tool `delete_memory` (manager.py lines 343-356). -/
def delete_memory (db : MemoryDb) (memory_id : String) : Except String String :=
  match db.delete_memory memory_id with
  | Except.ok _ => Except.ok "Memory deleted successfully"
  | Except.error e => Except.ok ("Error deleting memory: " ++ e)

/-- Tool `clear_memory` (manager.py lines 358-365). Unlike its three
siblings it has no `try/except`: a failure of `db.clear()` propagates as
an exception. -/
def clear_memory (db : MemoryDb) : Except String String :=
  match db.clear () with
  | Except.ok _ => Except.ok "Memory cleared successfully"
  | Except.error e => Except.error e

/-- The four tools of `_get_db_tools`, identified by the Python
functions' `__name__`. The closure context (`user_id`, `db`,
`input_string`) is threaded separately through `ToolCall.run`. -/
inductive DbToolName where
  | add_memory : DbToolName
  | update_memory : DbToolName
  | delete_memory : DbToolName
  | clear_memory : DbToolName
deriving DecidableEq

/-- The Python `__name__` of each tool. -/
def DbToolName.fname : DbToolName → String
  | DbToolName.add_memory => "add_memory"
  | DbToolName.update_memory => "update_memory"
  | DbToolName.delete_memory => "delete_memory"
  | DbToolName.clear_memory => "clear_memory"

/-- Function `_get_db_tools` (manager.py lines 267-376): the list of tools
selected by the four enable flags, in source order. -/
def _get_db_tools (user_id : String) (db : MemoryDb) (input_string : String)
    (enable_add_memory enable_update_memory enable_delete_memory enable_clear_memory : Bool) :
    List DbToolName :=
  (if enable_add_memory then [DbToolName.add_memory] else []) ++
  (if enable_update_memory then [DbToolName.update_memory] else []) ++
  (if enable_delete_memory then [DbToolName.delete_memory] else []) ++
  (if enable_clear_memory then [DbToolName.clear_memory] else [])

/-- Modelled from the spec: the model instance's registered toolset
(`set_tools` / `set_functions` state), with tool dicts represented by
their function name. -/
structure ModelState where
  tools : List String
  functions : List String
deriving DecidableEq

/-- One iteration of the `add_tools_to_model` loop body (manager.py
lines 40-50): skip a tool whose name is already registered, register a
tool whose schema derivation succeeds, skip (with a warning) one whose
derivation raises; `deriv` models whether `Function.from_callable`
succeeds for a tool. -/
def regStep (deriv : DbToolName → Bool) (acc : List String × List String)
    (tool : DbToolName) : List String × List String :=
  if acc.2.contains tool.fname then acc
  else if deriv tool then (acc.1 ++ [tool.fname], acc.2 ++ [tool.fname])
  else acc

/-- Function `add_tools_to_model` (manager.py lines 33-55):
`reset_tools_and_functions` first, then run the registration loop from
the reset (empty) tool and function lists, and set the results on the
model — a full replacement of whatever was registered before. -/
def add_tools_to_model (model : ModelState) (tools : List DbToolName)
    (deriv : DbToolName → Bool) : ModelState :=
  let res := tools.foldl (regStep deriv) ([], [])
  ⟨res.1, res.2⟩

/-! ## Prompt builder (`get_system_message`, manager.py lines 57-110) -/

/-- The first element of `system_prompt_lines`: thirteen adjacent string
literals of the source (lines 66-78), one Python list element. -/
def promptIntro : String :=
  "Your task is to add, update, or delete memories based on the user's task. " ++
  "You can also decide that no new memories or other changes are needed. " ++
  "If you do create new memories, create one or more memories that captures the key information provided by the user, as if you were storing it for future reference. " ++
  "Memories should be a brief, third-person statement that encapsulates the most important aspect of the user's input, without adding any extraneous information. " ++
  "Don't make a single memory too long, but do create multiple memories if needed to capture all the information. " ++
  "When updating a memory, append the existing memory with new information rather than completely overwriting it. " ++
  "If there is no new information, do not update the memory. " ++
  "Memories should include details that could personalize ongoing interactions with the user, such as:" ++
  "  - Personal facts: name, age, occupation, location, interests, preferences, etc." ++
  "  - Significant life events or experiences shared by the user" ++
  "  - Important context about the user's current situation, challenges or goals" ++
  "  - What the user likes or dislikes, their opinions, beliefs, values, etc." ++
  "  - Any other details that provide valuable insights into the user's personality, perspective or needs"

/-- Source line 79. -/
def promptProvided : String :=
  "You will also be provided with a list of existing memories. You may:"

/-- Source line 80. -/
def optNoChanges : String := "  1. Decide to make no changes to the existing memories."

/-- Source line 81. -/
def optAdd : String := "  2. Decide to add a new memory using the `add_memory` tool."

/-- Source line 82. -/
def optUpdate : String := "  3. Decide to update an existing memory using the `update_memory` tool."

/-- Source line 85, appended only when `enable_delete_memory`. -/
def optDelete : String := "  4. Decide to delete an existing memory using the `delete_memory` tool."

/-- Source line 87, appended only when `enable_clear_memory`. -/
def optClear : String := "  5. Decide to clear all memories using the `clear_memory` tool."

/-- Source line 89. -/
def promptMulti : String := "You can call multiple of these tools in a single response if needed. "

/-- Source line 90. -/
def promptOnlyIfNeeded : String :=
  "Only add or update memories if it is necessary to capture key information provided by the user."

/-- The lines appended for the dialogue portion (manager.py lines
93-100): under `if messages:` — a Python truthiness test, false exactly
on `None` and on the empty list — the `<user_messages>` block holding
the newline-join of the contents of the user-role messages. -/
def userMessagesLines (messages : Option (List Message)) : List String :=
  match messages with
  | none => []
  | some msgs =>
    if msgs.isEmpty then []
    else
      ["\n<user_messages>",
       joinWith "\n" ((msgs.filter (fun m => m.role == "user")).map
         (fun m => m.get_content_string)),
       "</user_messages>"]

/-- The lines appended for the existing entries (manager.py lines
102-108): under `if existing_memories and len(existing_memories) > 0` —
one `ID:` line, one `Memory:` line and one `"\n"` separator element per
entry, inside the `<existing_memories>` block. -/
def existingMemoriesLines (existing_memories : Option (List ExistingMemory)) : List String :=
  match existing_memories with
  | none => []
  | some ems =>
    if ems.isEmpty then []
    else
      ["<existing_memories>"] ++
        (ems.flatMap (fun e => ["ID: " ++ e.memory_id, "Memory: " ++ e.memory, "\n"])) ++
        ["</existing_memories>"]

/-- The `system_prompt_lines` list built by `get_system_message`
(manager.py lines 65-108): the base prompt, the conditionally offered
delete/clear options, the user-authored dialogue portion, and the
existing-entries block. -/
def systemPromptLines (existing_memories : Option (List ExistingMemory))
    (messages : Option (List Message))
    (enable_delete_memory enable_clear_memory : Bool) : List String :=
  [promptIntro, promptProvided, optNoChanges, optAdd, optUpdate] ++
    (if enable_delete_memory then [optDelete] else []) ++
    (if enable_clear_memory then [optClear] else []) ++
    [promptMulti, promptOnlyIfNeeded] ++
    userMessagesLines messages ++
    existingMemoriesLines existing_memories

/-- Function `get_system_message` (manager.py lines 57-110): the system message
whose content joins `system_prompt_lines` with newlines. -/
def get_system_message (existing_memories : Option (List ExistingMemory))
    (messages : Option (List Message))
    (enable_delete_memory enable_clear_memory : Bool) : Message :=
  ⟨"system", joinWith "\n"
    (systemPromptLines existing_memories messages enable_delete_memory enable_clear_memory)⟩

/-! ## Model interaction (modelled from the spec) -/

/-- A tool invocation the model chose, with its structured arguments.
For `add`, `memory_id` and `last_updated` stand for the `uuid4()` and
`datetime.now()` drawn when the tool body runs; for `update`,
`last_updated` stands for `datetime.now()`. -/
inductive ToolCall where
  | add (memory : String) (topics : Option (List String))
      (memory_id : String) (last_updated : Nat) : ToolCall
  | update (memory_id memory : String) (topics : Option (List String))
      (last_updated : Nat) : ToolCall
  | delete (memory_id : String) : ToolCall
  | clear : ToolCall
deriving DecidableEq

/-- The name of the tool a call invokes. -/
def ToolCall.fname : ToolCall → String
  | ToolCall.add _ _ _ _ => "add_memory"
  | ToolCall.update _ _ _ _ => "update_memory"
  | ToolCall.delete _ => "delete_memory"
  | ToolCall.clear => "clear_memory"

/-- Execute a tool call against the closure context
(`user_id`, `db`, `input_string`) captured by `_get_db_tools`. -/
def ToolCall.run (user_id : String) (db : MemoryDb) (input_string : String) :
    ToolCall → Except String String
  | ToolCall.add memory topics memory_id last_updated =>
      add_memory user_id db input_string memory topics memory_id last_updated
  | ToolCall.update memory_id memory topics last_updated =>
      update_memory user_id db input_string memory_id memory topics last_updated
  | ToolCall.delete memory_id => delete_memory db memory_id
  | ToolCall.clear => clear_memory db

/-- What one model inference reports back: optional text and the
optional list of tool calls it made. -/
structure ModelResponse where
  content : Option String
  tool_calls : Option (List ToolCall)
deriving DecidableEq

/-- Modelled from the spec: the external model's decision function.
Given the registered toolset and the message list it chooses a textual
reply and a list of tool invocations. -/
structure InferenceOracle where
  choose : ModelState → List Message → Option String × List ToolCall

/-- Run the model's chosen tool calls in order; a call that raises
aborts the whole inference with that exception. -/
def runToolCalls (run : ToolCall → Except String String) :
    List ToolCall → Except String (List ToolCall)
  | [] => Except.ok []
  | c :: rest =>
    match run c with
    | Except.error e => Except.error e
    | Except.ok _ =>
      match runToolCalls run rest with
      | Except.error e => Except.error e
      | Except.ok cs => Except.ok (c :: cs)

/-- Modelled from the spec: `Model.response` / `Model.aresponse`
"includes running function calls" — the model chooses calls, only
registered functions are invocable, each is executed against storage,
and an exception escaping a tool escapes the inference call. The
response reports the executed calls (`None` when there were none). -/
def model_response (st : ModelState) (oracle : InferenceOracle)
    (run : ToolCall → Except String String) (messages : List Message) :
    Except String ModelResponse :=
  let choice := oracle.choose st messages
  let chosen := choice.2.filter (fun c => st.functions.contains c.fname)
  match runToolCalls run chosen with
  | Except.error e => Except.error e
  | Except.ok executed =>
      Except.ok ⟨choice.1, if executed.isEmpty then none else some executed⟩

/-! ## Orchestration entry points (manager.py lines 112-264) -/

/-- Python `x or default` on an optional string: `None` and the empty
string are falsy and yield the default. -/
def pyOrString (s : Option String) (d : String) : String :=
  match s with
  | some c => if c = "" then d else c
  | none => d

/-- The test `response.tool_calls is not None and len(response.tool_calls) > 0`. -/
def hasToolCalls (tc : Option (List ToolCall)) : Bool :=
  match tc with
  | none => false
  | some tcs => decide (tcs.length > 0)

/-- The synthetic input string derived from the dialogue
(manager.py lines 125-130 and, identically, 170-175): a single message's
content verbatim, otherwise a bracketed comma-join of the contents of
the user-role messages with truthy (non-empty) content. -/
def inputStringOf (messages : List Message) : String :=
  match messages with
  | [m] => m.get_content_string
  | _ =>
    "[" ++ joinWith ", "
      ((messages.filter (fun m => m.role == "user" && m.content != "")).map
        (fun m => m.get_content_string)) ++ "]"

/-- The manager's state: the configured model (its registered toolset),
the constructor-accepted but never-read `system_prompt`, and the
`memories_updated` flag. -/
structure MemoryManager where
  model : Option ModelState
  system_prompt : Option String
  memories_updated : Bool
deriving DecidableEq

/-- The tail every entry point shares (manager.py lines 149-155, 191-198,
224-231, 257-264): on a response, set `memories_updated` when the
response reports at least one tool call and return the response's text
(or the fixed fallback); an exception from the inference call propagates
before the flag assignment, leaving the manager unchanged. -/
def finishCall (mm : MemoryManager) (r : Except String ModelResponse) :
    MemoryManager × Except String String :=
  match r with
  | Except.error e => (mm, Except.error e)
  | Except.ok response =>
    (if hasToolCalls response.tool_calls then ⟨mm.model, mm.system_prompt, true⟩ else mm,
     Except.ok (pyOrString response.content "No response from model"))

/-- Entry point `create_or_update_memories` (manager.py lines 112-155). The deep
copy of the model is implicit in the pure embedding: tools are
registered on a per-call value, the manager's own model is untouched.
Returns the updated manager and the returned string (`Except.error`
standing for an exception escaping the entry point). -/
def create_or_update_memories (mm : MemoryManager) (messages : List Message)
    (existing_memories : List ExistingMemory) (user_id : String) (db : MemoryDb)
    (oracle : InferenceOracle) (deriv : DbToolName → Bool) :
    MemoryManager × Except String String :=
  match mm.model with
  | none => (mm, Except.ok "No model provided for memory manager")
  | some model =>
    let input_string := inputStringOf messages
    let model_copy := add_tools_to_model model
      (_get_db_tools user_id db input_string true true false false) deriv
    let messages_for_model : List Message :=
      [get_system_message (some existing_memories) (some messages) false false,
       ⟨"user", "Create or update memories based on the user's messages."⟩]
    finishCall mm (model_response model_copy oracle
      (ToolCall.run user_id db input_string) messages_for_model)

/-- Entry point `acreate_or_update_memories` (manager.py lines 157-198), the awaited
variant; the `await` is erased in the pure embedding. Note the source
calls `get_system_message(existing_memories, messages=messages)` without
the enable flags (line 186), so the Python defaults
`enable_delete_memory=True, enable_clear_memory=True` apply — unlike the
sync variant. -/
def acreate_or_update_memories (mm : MemoryManager) (messages : List Message)
    (existing_memories : List ExistingMemory) (user_id : String) (db : MemoryDb)
    (oracle : InferenceOracle) (deriv : DbToolName → Bool) :
    MemoryManager × Except String String :=
  match mm.model with
  | none => (mm, Except.ok "No model provided for memory manager")
  | some model =>
    let input_string := inputStringOf messages
    let model_copy := add_tools_to_model model
      (_get_db_tools user_id db input_string true true false false) deriv
    let messages_for_model : List Message :=
      [get_system_message (some existing_memories) (some messages) true true,
       ⟨"user", "Create or update memories based on the user's messages."⟩]
    finishCall mm (model_response model_copy oracle
      (ToolCall.run user_id db input_string) messages_for_model)

/-- Entry point `run_memory_task` (manager.py lines 200-231). -/
def run_memory_task (mm : MemoryManager) (task : String)
    (existing_memories : List ExistingMemory) (user_id : String) (db : MemoryDb)
    (oracle : InferenceOracle) (deriv : DbToolName → Bool) :
    MemoryManager × Except String String :=
  match mm.model with
  | none => (mm, Except.ok "No model provided for memory manager")
  | some model =>
    let model_copy := add_tools_to_model model
      (_get_db_tools user_id db task true true true true) deriv
    let messages_for_model : List Message :=
      [get_system_message (some existing_memories) none true true,
       ⟨"user", task⟩]
    finishCall mm (model_response model_copy oracle
      (ToolCall.run user_id db task) messages_for_model)

/-- Entry point `arun_memory_task` (manager.py lines 233-264), the awaited variant;
its body matches `run_memory_task` with `response` replaced by the
awaited `aresponse`. -/
def arun_memory_task (mm : MemoryManager) (task : String)
    (existing_memories : List ExistingMemory) (user_id : String) (db : MemoryDb)
    (oracle : InferenceOracle) (deriv : DbToolName → Bool) :
    MemoryManager × Except String String :=
  match mm.model with
  | none => (mm, Except.ok "No model provided for memory manager")
  | some model =>
    let model_copy := add_tools_to_model model
      (_get_db_tools user_id db task true true true true) deriv
    let messages_for_model : List Message :=
      [get_system_message (some existing_memories) none true true,
       ⟨"user", task⟩]
    finishCall mm (model_response model_copy oracle
      (ToolCall.run user_id db task) messages_for_model)

/-- One orchestration call on a manager: which entry point is invoked
and with which arguments. -/
inductive MemoryCall where
  | createOrUpdate (messages : List Message) (existing : List ExistingMemory)
      (user_id : String) (db : MemoryDb) (oracle : InferenceOracle)
      (deriv : DbToolName → Bool) : MemoryCall
  | acreateOrUpdate (messages : List Message) (existing : List ExistingMemory)
      (user_id : String) (db : MemoryDb) (oracle : InferenceOracle)
      (deriv : DbToolName → Bool) : MemoryCall
  | runTask (task : String) (existing : List ExistingMemory)
      (user_id : String) (db : MemoryDb) (oracle : InferenceOracle)
      (deriv : DbToolName → Bool) : MemoryCall
  | arunTask (task : String) (existing : List ExistingMemory)
      (user_id : String) (db : MemoryDb) (oracle : InferenceOracle)
      (deriv : DbToolName → Bool) : MemoryCall

/-- The step relation of orchestration calls: apply one entry point. -/
def stepCall (mm : MemoryManager) : MemoryCall → MemoryManager × Except String String
  | MemoryCall.createOrUpdate messages existing user_id db oracle deriv =>
      create_or_update_memories mm messages existing user_id db oracle deriv
  | MemoryCall.acreateOrUpdate messages existing user_id db oracle deriv =>
      acreate_or_update_memories mm messages existing user_id db oracle deriv
  | MemoryCall.runTask task existing user_id db oracle deriv =>
      run_memory_task mm task existing user_id db oracle deriv
  | MemoryCall.arunTask task existing user_id db oracle deriv =>
      arun_memory_task mm task existing user_id db oracle deriv

/-- The model inference a call performs (`None` when the manager has no
model and the entry point returns its sentinel before inferring). -/
def callResponse (mm : MemoryManager) : MemoryCall → Option (Except String ModelResponse)
  | MemoryCall.createOrUpdate messages existing user_id db oracle deriv =>
    match mm.model with
    | none => none
    | some model =>
      some (model_response
        (add_tools_to_model model
          (_get_db_tools user_id db (inputStringOf messages) true true false false) deriv)
        oracle (ToolCall.run user_id db (inputStringOf messages))
        [get_system_message (some existing) (some messages) false false,
         ⟨"user", "Create or update memories based on the user's messages."⟩])
  | MemoryCall.acreateOrUpdate messages existing user_id db oracle deriv =>
    match mm.model with
    | none => none
    | some model =>
      some (model_response
        (add_tools_to_model model
          (_get_db_tools user_id db (inputStringOf messages) true true false false) deriv)
        oracle (ToolCall.run user_id db (inputStringOf messages))
        [get_system_message (some existing) (some messages) true true,
         ⟨"user", "Create or update memories based on the user's messages."⟩])
  | MemoryCall.runTask task existing user_id db oracle deriv =>
    match mm.model with
    | none => none
    | some model =>
      some (model_response
        (add_tools_to_model model
          (_get_db_tools user_id db task true true true true) deriv)
        oracle (ToolCall.run user_id db task)
        [get_system_message (some existing) none true true, ⟨"user", task⟩])
  | MemoryCall.arunTask task existing user_id db oracle deriv =>
    match mm.model with
    | none => none
    | some model =>
      some (model_response
        (add_tools_to_model model
          (_get_db_tools user_id db task true true true true) deriv)
        oracle (ToolCall.run user_id db task)
        [get_system_message (some existing) none true true, ⟨"user", task⟩])

/-! ## Supporting lemmas -/

theorem not_occ_of_not_mem {α : Type} {p s : List α} {c : α}
    (hc : c ∈ p) (hs : c ∉ s) : ¬ OccursIn p s := by
  rintro ⟨a, b, rfl⟩
  exact hs (by simp [hc])

theorem finishCall_monotone (mm : MemoryManager) (r : Except String ModelResponse)
    (h : mm.memories_updated = true) : (finishCall mm r).1.memories_updated = true := by
  cases r with
  | error e => exact h
  | ok response =>
    unfold finishCall
    by_cases ht : hasToolCalls response.tool_calls = true
    · simp [ht]
    · simp [ht, h]

theorem finishCall_flag_true (mm : MemoryManager) (resp : ModelResponse)
    (ht : hasToolCalls resp.tool_calls = true) :
    (finishCall mm (Except.ok resp)).1.memories_updated = true := by
  simp [finishCall, ht]

theorem finishCall_flag_keep (mm : MemoryManager) (resp : ModelResponse)
    (ht : hasToolCalls resp.tool_calls = false) :
    (finishCall mm (Except.ok resp)).1 = mm := by
  simp [finishCall, ht]

/-- The step relation factored through the inference a call performs. -/
theorem stepCall_eq (mm : MemoryManager) (call : MemoryCall) :
    stepCall mm call =
      match callResponse mm call with
      | none => (mm, Except.ok "No model provided for memory manager")
      | some r => finishCall mm r := by
  cases call with
  | createOrUpdate messages existing user_id db oracle deriv =>
    cases hm : mm.model with
    | none => simp [stepCall, create_or_update_memories, callResponse, hm]
    | some M => simp [stepCall, create_or_update_memories, callResponse, hm]
  | acreateOrUpdate messages existing user_id db oracle deriv =>
    cases hm : mm.model with
    | none => simp [stepCall, acreate_or_update_memories, callResponse, hm]
    | some M => simp [stepCall, acreate_or_update_memories, callResponse, hm]
  | runTask task existing user_id db oracle deriv =>
    cases hm : mm.model with
    | none => simp [stepCall, run_memory_task, callResponse, hm]
    | some M => simp [stepCall, run_memory_task, callResponse, hm]
  | arunTask task existing user_id db oracle deriv =>
    cases hm : mm.model with
    | none => simp [stepCall, arun_memory_task, callResponse, hm]
    | some M => simp [stepCall, arun_memory_task, callResponse, hm]

/-- Every function name the registration loop adds comes from the tool
list. -/
theorem foldl_regStep_sub (deriv : DbToolName → Bool) :
    ∀ (ts : List DbToolName) (acc : List String × List String) (n : String),
      n ∈ (ts.foldl (regStep deriv) acc).2 → n ∈ acc.2 ∨ ∃ t, t ∈ ts ∧ n = t.fname := by
  intro ts
  induction ts with
  | nil =>
    intro acc n h
    exact Or.inl h
  | cons t ts ih =>
    intro acc n h
    rcases ih (regStep deriv acc t) n h with h1 | ⟨t', ht', hn⟩
    · unfold regStep at h1
      by_cases hc : acc.2.contains t.fname
      · simp only [hc, if_true] at h1
        exact Or.inl h1
      · simp only [hc] at h1
        by_cases hd : deriv t
        · simp only [hd, if_true, if_false] at h1
          rcases List.mem_append.mp h1 with h1 | h1
          · exact Or.inl h1
          · exact Or.inr ⟨t, List.mem_cons_self _ _, List.mem_singleton.mp h1⟩
        · simp only [hd, if_false] at h1
          exact Or.inl h1
    · exact Or.inr ⟨t', List.mem_cons_of_mem _ ht', hn⟩

theorem add_tools_functions_sub (M : ModelState) (ts : List DbToolName)
    (deriv : DbToolName → Bool) (n : String)
    (h : n ∈ (add_tools_to_model M ts deriv).functions) : ∃ t, t ∈ ts ∧ n = t.fname := by
  unfold add_tools_to_model at h
  rcases foldl_regStep_sub deriv ts ([], []) n h with h1 | h2
  · simp at h1
  · exact h2

/-- Tools `add_memory` and `update_memory` swallow every storage failure. -/
theorem addupdate_run_ok (user_id : String) (db : MemoryDb) (input_string : String)
    (c : ToolCall) (h : c.fname = "add_memory" ∨ c.fname = "update_memory") :
    ∃ s, ToolCall.run user_id db input_string c = Except.ok s := by
  cases c with
  | add memory topics memory_id last_updated =>
    cases hdb : db.upsert_memory (addRow user_id input_string memory_id last_updated memory topics) with
    | ok u => exact ⟨"Memory added successfully", by simp [ToolCall.run, add_memory, hdb]⟩
    | error e => exact ⟨"Error adding memory: " ++ e, by simp [ToolCall.run, add_memory, hdb]⟩
  | update memory_id memory topics last_updated =>
    cases hdb : db.upsert_memory (updateRow user_id input_string memory_id last_updated memory topics) with
    | ok u => exact ⟨"Memory updated successfully", by simp [ToolCall.run, update_memory, hdb]⟩
    | error e => exact ⟨"Error adding memory: " ++ e, by simp [ToolCall.run, update_memory, hdb]⟩
  | delete memory_id => simp [ToolCall.fname] at h
  | clear => simp [ToolCall.fname] at h

theorem runToolCalls_ok (run : ToolCall → Except String String) :
    ∀ (cs : List ToolCall), (∀ c ∈ cs, ∃ s, run c = Except.ok s) →
      ∃ out, runToolCalls run cs = Except.ok out := by
  intro cs
  induction cs with
  | nil => exact fun _ => ⟨[], rfl⟩
  | cons c rest ih =>
    intro h
    rcases h c (List.mem_cons_self _ _) with ⟨s, hs⟩
    rcases ih (fun c' hc' => h c' (List.mem_cons_of_mem _ hc')) with ⟨out, hout⟩
    exact ⟨c :: out, by simp [runToolCalls, hs, hout]⟩

/-- With only `add_memory`/`update_memory` registered, the inference
call never raises: every tool the model can invoke swallows storage
failures. -/
theorem create_model_response_ok (M : ModelState) (deriv : DbToolName → Bool)
    (user_id : String) (db : MemoryDb) (input_string : String)
    (oracle : InferenceOracle) (msgs : List Message) :
    ∃ resp, model_response
      (add_tools_to_model M (_get_db_tools user_id db input_string true true false false) deriv)
      oracle (ToolCall.run user_id db input_string) msgs = Except.ok resp := by
  unfold model_response
  have hall : ∀ c ∈ (oracle.choose
      (add_tools_to_model M (_get_db_tools user_id db input_string true true false false) deriv)
      msgs).2.filter
        (fun c => (add_tools_to_model M
          (_get_db_tools user_id db input_string true true false false) deriv).functions.contains c.fname),
      ∃ s, ToolCall.run user_id db input_string c = Except.ok s := by
    intro c hc
    rcases List.mem_filter.mp hc with ⟨_, hmem⟩
    have hfn : c.fname ∈ (add_tools_to_model M
        (_get_db_tools user_id db input_string true true false false) deriv).functions := by
      simpa using hmem
    rcases add_tools_functions_sub _ _ _ _ hfn with ⟨t, ht, heq⟩
    apply addupdate_run_ok
    have hts : _get_db_tools user_id db input_string true true false false
        = [DbToolName.add_memory, DbToolName.update_memory] := rfl
    rw [hts] at ht
    rcases List.mem_cons.mp ht with rfl | ht'
    · exact Or.inl heq
    · rcases List.mem_cons.mp ht' with rfl | ht''
      · exact Or.inr heq
      · simp at ht''
  rcases runToolCalls_ok _ _ hall with ⟨out, hout⟩
  dsimp only
  rw [hout]
  exact ⟨_, rfl⟩

theorem not_occ_singleton {α : Type} {p : List α} {c : α}
    (hp : p ≠ []) (hc : c ∉ p) : ¬ OccursIn p [c] := by
  apply not_occ_cons hp hc
  intro h
  exact hp (occ_nil h)


theorem user_lines_not_occ (pat : List Char) (hp : pat ≠ []) (hn : ('\n' : Char) ∉ pat)
    (hopen : ¬ OccursIn pat ("\n<user_messages>" : String).data)
    (hclose : ¬ OccursIn pat ("</user_messages>" : String).data)
    (ms : Option (List Message))
    (h3 : ∀ msgs, ms = some msgs → ∀ m ∈ msgs, m.role = "user" → ¬ OccursIn pat m.content.data) :
    ∀ l ∈ userMessagesLines ms, ¬ OccursIn pat l.data := by
  intro l hl
  cases ms with
  | none => simp [userMessagesLines] at hl
  | some msgs =>
    cases hmsgs : msgs.isEmpty with
    | true => simp [userMessagesLines, hmsgs] at hl
    | false =>
      have hlines : userMessagesLines (some msgs) =
          ["\n<user_messages>",
           joinWith "\n" ((msgs.filter (fun m => m.role == "user")).map
             (fun m => m.get_content_string)),
           "</user_messages>"] := by
        simp [userMessagesLines, hmsgs]
      rw [hlines] at hl
      rcases List.mem_cons.mp hl with rfl | hl
      · exact hopen
      · rcases List.mem_cons.mp hl with rfl | hl
        · apply not_occ_joinWith hp hn
          intro l' hl'
          rcases List.mem_map.mp hl' with ⟨m, hm, rfl⟩
          rcases List.mem_filter.mp hm with ⟨hmem, hrole⟩
          exact h3 msgs rfl m hmem (by simpa using hrole)
        · rcases List.mem_singleton.mp hl with rfl
          exact hclose

theorem mem_lines_not_occ (pat : List Char) (hp : pat ≠ []) (hn : ('\n' : Char) ∉ pat)
    (hopen : ¬ OccursIn pat ("<existing_memories>" : String).data)
    (hclose : ¬ OccursIn pat ("</existing_memories>" : String).data)
    (hid : ¬ OccursIn pat ("ID: " : String).data)
    (hidspan : spanListB ("ID: " : String).data pat = false)
    (hmem : ¬ OccursIn pat ("Memory: " : String).data)
    (hmemspan : spanListB ("Memory: " : String).data pat = false)
    (em : Option (List ExistingMemory))
    (h2 : ∀ ems, em = some ems → ∀ e ∈ ems,
      ¬ OccursIn pat e.memory_id.data ∧ ¬ OccursIn pat e.memory.data) :
    ∀ l ∈ existingMemoriesLines em, ¬ OccursIn pat l.data := by
  intro l hl
  cases em with
  | none => simp [existingMemoriesLines] at hl
  | some ems =>
    cases hems : ems.isEmpty with
    | true => simp [existingMemoriesLines, hems] at hl
    | false =>
      have hlines : existingMemoriesLines (some ems) =
          "<existing_memories>" ::
            ((ems.flatMap (fun e => ["ID: " ++ e.memory_id, "Memory: " ++ e.memory, "\n"])) ++
             ["</existing_memories>"]) := by
        simp [existingMemoriesLines, hems]
      rw [hlines] at hl
      rcases List.mem_cons.mp hl with rfl | hl
      · exact hopen
      · rcases List.mem_append.mp hl with hl | hl
        · rcases List.mem_flatMap.mp hl with ⟨e, he', hel⟩
          rcases List.mem_cons.mp hel with rfl | hel'
          · rw [String.data_append]
            exact not_occ_append_of hid (h2 ems rfl e he').1 hidspan
          · rcases List.mem_cons.mp hel' with rfl | hel''
            · rw [String.data_append]
              exact not_occ_append_of hmem (h2 ems rfl e he').2 hmemspan
            · rcases List.mem_singleton.mp hel'' with rfl
              exact not_occ_singleton hp hn
        · rcases List.mem_singleton.mp hl with rfl
          exact hclose

/-- No line of the rendered instruction with delete/clear disabled
contains `pat`, provided neither the embedded user content nor the
entries do, and `pat` clears the concrete base lines. -/
theorem no_mention (pat : List Char) (hp : pat ≠ []) (hn : ('\n' : Char) ∉ pat)
    (hbase : ∀ l ∈ ([promptIntro, promptProvided, optNoChanges, optAdd, optUpdate,
        promptMulti, promptOnlyIfNeeded, "\n<user_messages>", "</user_messages>",
        "<existing_memories>", "</existing_memories>"] : List String),
      ¬ OccursIn pat l.data)
    (hid : ¬ OccursIn pat ("ID: " : String).data)
    (hidspan : spanListB ("ID: " : String).data pat = false)
    (hmem : ¬ OccursIn pat ("Memory: " : String).data)
    (hmemspan : spanListB ("Memory: " : String).data pat = false)
    (em : Option (List ExistingMemory)) (ms : Option (List Message))
    (h2 : ∀ ems, em = some ems → ∀ e ∈ ems,
      ¬ OccursIn pat e.memory_id.data ∧ ¬ OccursIn pat e.memory.data)
    (h3 : ∀ msgs, ms = some msgs → ∀ m ∈ msgs, m.role = "user" → ¬ OccursIn pat m.content.data) :
    ¬ OccursIn pat (joinWith "\n" (systemPromptLines em ms false false)).data := by
  apply not_occ_joinWith hp hn
  intro l hl
  have hshape : systemPromptLines em ms false false =
      [promptIntro, promptProvided, optNoChanges, optAdd, optUpdate,
       promptMulti, promptOnlyIfNeeded] ++
        (userMessagesLines ms ++ existingMemoriesLines em) := by
    simp [systemPromptLines]
  rw [hshape] at hl
  rcases List.mem_append.mp hl with hl | hl
  · apply hbase
    rcases List.mem_cons.mp hl with rfl | hl
    · simp
    · rcases List.mem_cons.mp hl with rfl | hl
      · simp
      · rcases List.mem_cons.mp hl with rfl | hl
        · simp
        · rcases List.mem_cons.mp hl with rfl | hl
          · simp
          · rcases List.mem_cons.mp hl with rfl | hl
            · simp
            · rcases List.mem_cons.mp hl with rfl | hl
              · simp
              · rcases List.mem_singleton.mp hl with rfl
                simp
  · rcases List.mem_append.mp hl with hl | hl
    · exact user_lines_not_occ pat hp hn (hbase _ (by simp)) (hbase _ (by simp)) ms h3 l hl
    · exact mem_lines_not_occ pat hp hn (hbase _ (by simp)) (hbase _ (by simp))
        hid hidspan hmem hmemspan em h2 l hl

/-! ## Claims -/

/-- Claim C2. The claim states all four tool operations catch any
storage failure and convert it to a string result. `add_memory`,
`update_memory` and `delete_memory` do, but `clear_memory` has no
`try/except`: on a backend whose `clear` raises, the exception
propagates past the tool boundary, while the sibling tools on the same
failing backend return strings. -/
theorem c2_clear_memory_propagates :
    clear_memory ⟨fun _ => Except.error "boom", fun _ => Except.error "boom",
        fun _ => Except.error "boom"⟩ = Except.error "boom" ∧
    add_memory "u" ⟨fun _ => Except.error "boom", fun _ => Except.error "boom",
        fun _ => Except.error "boom"⟩ "inp" "m" none "mid" 0
      = Except.ok "Error adding memory: boom" ∧
    update_memory "u" ⟨fun _ => Except.error "boom", fun _ => Except.error "boom",
        fun _ => Except.error "boom"⟩ "inp" "mid" "m" none 0
      = Except.ok "Error adding memory: boom" ∧
    delete_memory ⟨fun _ => Except.error "boom", fun _ => Except.error "boom",
        fun _ => Except.error "boom"⟩ "mid"
      = Except.ok "Error deleting memory: boom" :=
  ⟨rfl, rfl, rfl, rfl⟩

/-- The synthetic input string exactly as claim C4's words describe it:
for more than one message, the bracketed comma-join of the contents of
the user-authored messages (with no further filtering). -/
def inputStringSpec (messages : List Message) : String :=
  match messages with
  | [m] => m.get_content_string
  | _ =>
    "[" ++ joinWith ", "
      ((messages.filter (fun m => m.role == "user")).map
        (fun m => m.get_content_string)) ++ "]"

/-- Claim C4, counterexample. On two user messages whose second content
is empty, the code's input string drops the empty-content message (the
source also tests `m.content` for truthiness), while the claim's
formula keeps it. -/
theorem c4_counterexample :
    inputStringOf [⟨"user", "a"⟩, ⟨"user", ""⟩] = "[a]" ∧
    inputStringSpec [⟨"user", "a"⟩, ⟨"user", ""⟩] = "[a, ]" :=
  ⟨rfl, rfl⟩

/-- The synthetic input string as claim C4 reads once amended: among the
user-authored messages only those with non-empty content are joined. -/
def inputStringSpecAmended (messages : List Message) : String :=
  if messages.length = 1 then (messages.headD ⟨"", ""⟩).get_content_string
  else
    "[" ++ joinWith ", "
      ((messages.filter (fun m => m.role == "user" && m.get_content_string != "")).map
        (fun m => m.get_content_string)) ++ "]"

/-- Claim C4, amended: for every non-empty message list, a single
message's content is used verbatim, and otherwise the input string is
the bracketed comma-join, in original order, of the contents of the
user-authored messages with non-empty content. -/
theorem c4_input_string (messages : List Message) (h : messages ≠ []) :
    inputStringOf messages = inputStringSpecAmended messages := by
  cases messages with
  | nil => exact absurd rfl h
  | cons m rest =>
    cases rest with
    | nil => rfl
    | cons m2 rest2 => rfl

/-- Claim C4 witness. -/
theorem c4_input_string_witness :
    inputStringOf [⟨"user", "a"⟩, ⟨"assistant", "b"⟩, ⟨"user", "c"⟩]
      = inputStringSpecAmended [⟨"user", "a"⟩, ⟨"assistant", "b"⟩, ⟨"user", "c"⟩] :=
  c4_input_string [⟨"user", "a"⟩, ⟨"assistant", "b"⟩, ⟨"user", "c"⟩] (by decide)

/-- Claim C6: with no model configured, each of the four entry points
returns the exact sentinel, leaves the manager unchanged and raises
nothing; the equations hold for every storage backend and every
inference oracle, so neither is ever consulted. -/
theorem c6_no_model_sentinel (mm : MemoryManager) (h : mm.model = none)
    (messages : List Message) (existing : List ExistingMemory) (task user_id : String)
    (db : MemoryDb) (oracle : InferenceOracle) (deriv : DbToolName → Bool) :
    create_or_update_memories mm messages existing user_id db oracle deriv
        = (mm, Except.ok "No model provided for memory manager") ∧
    acreate_or_update_memories mm messages existing user_id db oracle deriv
        = (mm, Except.ok "No model provided for memory manager") ∧
    run_memory_task mm task existing user_id db oracle deriv
        = (mm, Except.ok "No model provided for memory manager") ∧
    arun_memory_task mm task existing user_id db oracle deriv
        = (mm, Except.ok "No model provided for memory manager") := by
  unfold create_or_update_memories acreate_or_update_memories run_memory_task arun_memory_task
  rw [h]
  exact ⟨rfl, rfl, rfl, rfl⟩

/-- Claim C6 witness. -/
theorem c6_no_model_sentinel_witness :
    create_or_update_memories ⟨none, none, false⟩ [] [] "u"
        ⟨fun _ => Except.ok (), fun _ => Except.ok (), fun _ => Except.ok ()⟩
        ⟨fun _ _ => (none, [])⟩ (fun _ => true)
      = (⟨none, none, false⟩, Except.ok "No model provided for memory manager") :=
  (c6_no_model_sentinel ⟨none, none, false⟩ rfl [] [] "t" "u"
    ⟨fun _ => Except.ok (), fun _ => Except.ok (), fun _ => Except.ok ()⟩
    ⟨fun _ _ => (none, [])⟩ (fun _ => true)).1

/-- Claim C8: when schema derivation succeeds for every candidate,
registering the run-free-form-task toolset (all four flags true) exposes
exactly the four operations in order, the extract-from-dialogue toolset
(delete/clear false) exposes exactly add and update, and registration is
a full replacement: the result never depends on what was previously
registered on the model. -/
theorem c8_tool_registration (M : ModelState) (deriv : DbToolName → Bool)
    (user_id : String) (db : MemoryDb) (input_string : String)
    (h : ∀ t, deriv t = true) :
    ((add_tools_to_model M (_get_db_tools user_id db input_string true true true true) deriv).tools
        = ["add_memory", "update_memory", "delete_memory", "clear_memory"] ∧
     (add_tools_to_model M (_get_db_tools user_id db input_string true true true true) deriv).functions
        = ["add_memory", "update_memory", "delete_memory", "clear_memory"]) ∧
    ((add_tools_to_model M (_get_db_tools user_id db input_string true true false false) deriv).tools
        = ["add_memory", "update_memory"] ∧
     (add_tools_to_model M (_get_db_tools user_id db input_string true true false false) deriv).functions
        = ["add_memory", "update_memory"]) ∧
    (∀ M1 M2 : ModelState, ∀ ts dv,
      add_tools_to_model M1 ts dv = add_tools_to_model M2 ts dv) := by
  have hd : deriv = fun _ => true := funext h
  subst hd
  exact ⟨⟨rfl, rfl⟩, ⟨rfl, rfl⟩, fun M1 M2 ts dv => rfl⟩

/-- Claim C8 witness: a model with previously registered tools ends up
with exactly the selected toolset. -/
theorem c8_tool_registration_witness :
    (add_tools_to_model ⟨["old_tool"], ["old_tool"]⟩
        (_get_db_tools "u" ⟨fun _ => Except.ok (), fun _ => Except.ok (), fun _ => Except.ok ()⟩
          "inp" true true true true) (fun _ => true)).tools
      = ["add_memory", "update_memory", "delete_memory", "clear_memory"] :=
  (c8_tool_registration ⟨["old_tool"], ["old_tool"]⟩ (fun _ => true) "u"
    ⟨fun _ => Except.ok (), fun _ => Except.ok (), fun _ => Except.ok ()⟩
    "inp" (fun _ => rfl)).1.1

/-- Claim C10: the `system_prompt` field is accepted by the constructor
but read by no operation — running any of the four entry points on two
managers that differ only in that field produces the same returned
value and the same model and flag evolution, with each manager keeping
its own `system_prompt`. (`get_system_message` does not take the field
at all.) -/
theorem c10_system_prompt_noninterference (mm : MemoryManager) (p : Option String)
    (call : MemoryCall) :
    stepCall ⟨mm.model, p, mm.memories_updated⟩ call =
      (⟨(stepCall mm call).1.model, p, (stepCall mm call).1.memories_updated⟩,
       (stepCall mm call).2) := by
  have hcr : callResponse ⟨mm.model, p, mm.memories_updated⟩ call = callResponse mm call := by
    cases call <;> rfl
  simp only [stepCall_eq, hcr]
  cases hc : callResponse mm call with
  | none => rfl
  | some r =>
    cases r with
    | error e => rfl
    | ok resp =>
      by_cases ht : hasToolCalls resp.tool_calls = true
      · simp [finishCall, ht]
      · simp only [Bool.not_eq_true] at ht
        simp [finishCall, ht]

/-- Claim C5: over the step relation of orchestration calls, the
`memories_updated` flag (i) becomes true after any call whose model
response reports at least one tool invocation, (ii) is left exactly at
its prior value — indeed the whole manager is unchanged — after a call
whose response reports none, and (iii) never transitions from true to
false. -/
theorem c5_flag_monotone (mm : MemoryManager) (call : MemoryCall) :
    (∀ resp : ModelResponse, callResponse mm call = some (Except.ok resp) →
      hasToolCalls resp.tool_calls = true →
      (stepCall mm call).1.memories_updated = true) ∧
    (∀ resp : ModelResponse, callResponse mm call = some (Except.ok resp) →
      hasToolCalls resp.tool_calls = false →
      (stepCall mm call).1 = mm) ∧
    (mm.memories_updated = true → (stepCall mm call).1.memories_updated = true) := by
  simp only [stepCall_eq]
  cases hc : callResponse mm call with
  | none =>
    refine ⟨?_, ?_, fun h => h⟩ <;> intro resp hresp <;> exact absurd hresp (by simp)
  | some r =>
    refine ⟨?_, ?_, fun h => finishCall_monotone mm r h⟩
    · intro resp hresp ht
      obtain rfl : r = Except.ok resp := Option.some.inj hresp
      exact finishCall_flag_true mm resp ht
    · intro resp hresp ht
      obtain rfl : r = Except.ok resp := Option.some.inj hresp
      exact finishCall_flag_keep mm resp ht

/-- Claim C5 witness: a call whose response reports one tool invocation
sets the flag. -/
theorem c5_flag_monotone_witness :
    (stepCall ⟨some ⟨[], []⟩, none, false⟩
        (MemoryCall.createOrUpdate [] [] "u"
          ⟨fun _ => Except.ok (), fun _ => Except.ok (), fun _ => Except.ok ()⟩
          ⟨fun _ _ => (some "t", [ToolCall.add "m" none "mid" 0])⟩
          (fun _ => true))).1.memories_updated = true :=
  (c5_flag_monotone ⟨some ⟨[], []⟩, none, false⟩
      (MemoryCall.createOrUpdate [] [] "u"
        ⟨fun _ => Except.ok (), fun _ => Except.ok (), fun _ => Except.ok ()⟩
        ⟨fun _ _ => (some "t", [ToolCall.add "m" none "mid" 0])⟩
        (fun _ => true))).1
    ⟨some "t", some [ToolCall.add "m" none "mid" 0]⟩ rfl rfl

/-- Claim C7: when a storage upsert raises inside `add_memory`, the tool
returns the string `"Error adding memory: " ++ e` — beginning with
`"Error adding memory:"` and carrying the failure's message — and the
extract-from-dialogue orchestration call (whose registered tools are
only add/update, both of which swallow storage failures) always
completes with the model's final text: no exception escapes the entry
point. -/
theorem c7_add_error_contained :
    (∀ (user_id input_string memory_id : String) (last_updated : Nat)
       (memory : String) (topics : Option (List String)) (db : MemoryDb) (e : String),
      db.upsert_memory (addRow user_id input_string memory_id last_updated memory topics)
          = Except.error e →
      add_memory user_id db input_string memory topics memory_id last_updated
          = Except.ok ("Error adding memory: " ++ e)) ∧
    (∀ (mm : MemoryManager) (M : ModelState), mm.model = some M →
      ∀ (messages : List Message) (existing : List ExistingMemory) (user_id : String)
        (db : MemoryDb) (oracle : InferenceOracle) (deriv : DbToolName → Bool),
      ∃ resp : ModelResponse,
        callResponse mm (MemoryCall.createOrUpdate messages existing user_id db oracle deriv)
            = some (Except.ok resp) ∧
        (stepCall mm (MemoryCall.createOrUpdate messages existing user_id db oracle deriv)).2
            = Except.ok (pyOrString resp.content "No response from model")) := by
  constructor
  · intro user_id input_string memory_id last_updated memory topics db e hdb
    unfold add_memory
    rw [hdb]
  · intro mm M hM messages existing user_id db oracle deriv
    rcases create_model_response_ok M deriv user_id db (inputStringOf messages) oracle
        [get_system_message (some existing) (some messages) false false,
         ⟨"user", "Create or update memories based on the user's messages."⟩]
      with ⟨resp, hresp⟩
    refine ⟨resp, ?_, ?_⟩
    · simp only [callResponse, hM, hresp]
    · rw [stepCall_eq]
      simp only [callResponse, hM, hresp]
      rfl

/-- Claim C7 witness: a failing backend, one add invocation — the tool
reports the error string and the call returns the model's text. -/
theorem c7_add_error_contained_witness :
    add_memory "u"
        ⟨fun _ => Except.error "boom", fun _ => Except.error "boom", fun _ => Except.error "boom"⟩
        "inp" "m" none "mid" 0 = Except.ok ("Error adding memory: " ++ "boom") ∧
    ∃ resp : ModelResponse,
      callResponse ⟨some ⟨[], []⟩, none, false⟩
          (MemoryCall.createOrUpdate [] [] "u"
            ⟨fun _ => Except.error "boom", fun _ => Except.error "boom", fun _ => Except.error "boom"⟩
            ⟨fun _ _ => (some "done", [ToolCall.add "m" none "mid" 0])⟩ (fun _ => true))
          = some (Except.ok resp) ∧
      (stepCall ⟨some ⟨[], []⟩, none, false⟩
          (MemoryCall.createOrUpdate [] [] "u"
            ⟨fun _ => Except.error "boom", fun _ => Except.error "boom", fun _ => Except.error "boom"⟩
            ⟨fun _ _ => (some "done", [ToolCall.add "m" none "mid" 0])⟩ (fun _ => true))).2
          = Except.ok (pyOrString resp.content "No response from model") :=
  ⟨c7_add_error_contained.1 "u" "inp" "mid" 0 "m" none
      ⟨fun _ => Except.error "boom", fun _ => Except.error "boom", fun _ => Except.error "boom"⟩
      "boom" rfl,
   c7_add_error_contained.2 ⟨some ⟨[], []⟩, none, false⟩ ⟨[], []⟩ rfl [] [] "u"
      ⟨fun _ => Except.error "boom", fun _ => Except.error "boom", fun _ => Except.error "boom"⟩
      ⟨fun _ _ => (some "done", [ToolCall.add "m" none "mid" 0])⟩ (fun _ => true)⟩

set_option maxRecDepth 10000 in
/-- Claim C3, counterexample. The claim asks for one line per entry
carrying both the entry's identifier and its text. For the single entry
`(id1, hello)` no line of the rendered instruction contains both: the
identifier and the text are rendered on two separate lines (`ID: id1`
and `Memory: hello`). Stated over the built line list, whose elements
are exactly the rendered lines here (none of these elements embeds a
newline next to the patterns). -/
theorem c3_counterexample :
    ((systemPromptLines (some [⟨"id1", "hello"⟩]) none true true).all
      (fun l => !(occLin ("id1" : String).data l.data &&
                  occLin ("hello" : String).data l.data))) = true := by
  decide

/-- Claim C3, amended: the rendered instruction ends with the
existing-memories section, which holds, for each entry in input order, a
line `ID: <identifier>` immediately followed by a line
`Memory: <text>` (and a blank separator element) — identifier and text
on two adjacent lines rather than one. -/
theorem c3_two_line_rendering (ems : List ExistingMemory) (ms : Option (List Message))
    (d c : Bool) (h : ems ≠ []) :
    ∃ q, (get_system_message (some ems) ms d c).content
      = q ++ joinWith "\n"
          ("<existing_memories>" ::
            (ems.flatMap (fun e => ["ID: " ++ e.memory_id, "Memory: " ++ e.memory, "\n"])) ++
            ["</existing_memories>"]) := by
  cases ems with
  | nil => exact absurd rfl h
  | cons e es =>
    have hsp : systemPromptLines (some (e :: es)) ms d c
        = ([promptIntro, promptProvided, optNoChanges, optAdd, optUpdate] ++
           (if d then [optDelete] else []) ++ (if c then [optClear] else []) ++
           [promptMulti, promptOnlyIfNeeded] ++ userMessagesLines ms) ++
          ("<existing_memories>" ::
            ((e :: es).flatMap (fun e => ["ID: " ++ e.memory_id, "Memory: " ++ e.memory, "\n"])) ++
            ["</existing_memories>"]) := by
      simp [systemPromptLines, existingMemoriesLines, List.append_assoc]
    rcases joinWith_append_sfx "\n"
        ([promptIntro, promptProvided, optNoChanges, optAdd, optUpdate] ++
         (if d then [optDelete] else []) ++ (if c then [optClear] else []) ++
         [promptMulti, promptOnlyIfNeeded] ++ userMessagesLines ms)
        ("<existing_memories>" ::
          ((e :: es).flatMap (fun e => ["ID: " ++ e.memory_id, "Memory: " ++ e.memory, "\n"])) ++
          ["</existing_memories>"]) (by simp) with ⟨q, hq⟩
    refine ⟨q, ?_⟩
    show joinWith "\n" (systemPromptLines (some (e :: es)) ms d c) = _
    rw [hsp, hq]

/-- Claim C3 witness. -/
theorem c3_two_line_rendering_witness :
    ∃ q, (get_system_message (some [⟨"id1", "hello"⟩]) none true true).content
      = q ++ joinWith "\n"
          ("<existing_memories>" ::
            (([⟨"id1", "hello"⟩] : List ExistingMemory).flatMap
              (fun e => ["ID: " ++ e.memory_id, "Memory: " ++ e.memory, "\n"])) ++
            ["</existing_memories>"]) :=
  c3_two_line_rendering [⟨"id1", "hello"⟩] none true true (by decide)

set_option maxRecDepth 10000 in
/-- Claim C1, divergence at a concrete input. The sync entry point
builds its system instruction with `enable_delete_memory=False,
enable_clear_memory=False`; the async one calls `get_system_message`
without those keyword arguments (manager.py line 186), so the Python
defaults (both `True`) apply and the instruction offers the
`delete_memory`/`clear_memory` options even though only add/update
tools are registered. An oracle that inspects the system instruction it
is sent for the token `delete_memory` answers differently under the two
entry points on identical inputs. -/
theorem c1_sync_async_divergence :
    (create_or_update_memories ⟨some ⟨[], []⟩, none, false⟩ [⟨"user", "hi"⟩] [] "u"
        ⟨fun _ => Except.ok (), fun _ => Except.ok (), fun _ => Except.ok ()⟩
        ⟨fun _ msgs => (some (if occLin ("delete_memory" : String).data
            ((msgs.headD ⟨"", ""⟩).content.data) then "mentions delete option"
          else "no delete option"), [])⟩
        (fun _ => true)).2 = Except.ok "no delete option" ∧
    (acreate_or_update_memories ⟨some ⟨[], []⟩, none, false⟩ [⟨"user", "hi"⟩] [] "u"
        ⟨fun _ => Except.ok (), fun _ => Except.ok (), fun _ => Except.ok ()⟩
        ⟨fun _ msgs => (some (if occLin ("delete_memory" : String).data
            ((msgs.headD ⟨"", ""⟩).content.data) then "mentions delete option"
          else "no delete option"), [])⟩
        (fun _ => true)).2 = Except.ok "mentions delete option" := by
  exact ⟨rfl, rfl⟩

set_option maxRecDepth 10000 in
/-- Claim C9: when both `enable_delete_memory` and `enable_clear_memory`
are false, the rendered instruction mentions neither the `delete_memory`
nor the `clear_memory` option anywhere (provided the embedded user
content and entry fields do not themselves carry those tokens — the
dialogue and the entries are embedded verbatim); when both are true,
the delete and clear option lines appear numbered 4 and 5, immediately
and consecutively after the add (2) and update (3) option lines. -/
theorem c9_option_mentions (em : Option (List ExistingMemory)) (ms : Option (List Message))
    (h2 : ∀ e ∈ em.getD [],
      (¬ OccursIn ("delete_memory" : String).data e.memory_id.data ∧
       ¬ OccursIn ("delete_memory" : String).data e.memory.data) ∧
      (¬ OccursIn ("clear_memory" : String).data e.memory_id.data ∧
       ¬ OccursIn ("clear_memory" : String).data e.memory.data))
    (h3 : ∀ m ∈ ms.getD [], m.role = "user" →
      ¬ OccursIn ("delete_memory" : String).data m.content.data ∧
      ¬ OccursIn ("clear_memory" : String).data m.content.data) :
    (¬ OccursIn ("delete_memory" : String).data
        (get_system_message em ms false false).content.data ∧
     ¬ OccursIn ("clear_memory" : String).data
        (get_system_message em ms false false).content.data) ∧
    OccursIn [optAdd, optUpdate, optDelete, optClear] (systemPromptLines em ms true true) := by
  have h2' : ∀ ems, em = some ems → ∀ e ∈ ems,
      (¬ OccursIn ("delete_memory" : String).data e.memory_id.data ∧
       ¬ OccursIn ("delete_memory" : String).data e.memory.data) ∧
      (¬ OccursIn ("clear_memory" : String).data e.memory_id.data ∧
       ¬ OccursIn ("clear_memory" : String).data e.memory.data) := by
    intro ems he e hee
    exact h2 e (by rw [he]; exact hee)
  have h3' : ∀ msgs, ms = some msgs → ∀ m ∈ msgs, m.role = "user" →
      ¬ OccursIn ("delete_memory" : String).data m.content.data ∧
      ¬ OccursIn ("clear_memory" : String).data m.content.data := by
    intro msgs hm m hmm
    exact h3 m (by rw [hm]; exact hmm)
  refine ⟨⟨?_, ?_⟩, ?_⟩
  · exact no_mention ("delete_memory" : String).data (by decide) (by decide) (by decide)
      (by decide) (by decide) (by decide) (by decide) em ms
      (fun ems he e hee => ((h2' ems he e hee).1))
      (fun msgs hm m hmm hr => (h3' msgs hm m hmm hr).1)
  · exact no_mention ("clear_memory" : String).data (by decide) (by decide) (by decide)
      (by decide) (by decide) (by decide) (by decide) em ms
      (fun ems he e hee => ((h2' ems he e hee).2))
      (fun msgs hm m hmm hr => (h3' msgs hm m hmm hr).2)
  · refine ⟨[promptIntro, promptProvided, optNoChanges],
      [promptMulti, promptOnlyIfNeeded] ++ userMessagesLines ms ++ existingMemoriesLines em, ?_⟩
    simp [systemPromptLines, List.append_assoc]

set_option maxRecDepth 10000 in
/-- Claim C9 witness. -/
theorem c9_option_mentions_witness :
    (¬ OccursIn ("delete_memory" : String).data
        (get_system_message (some [⟨"id1", "likes tea"⟩]) (some [⟨"user", "hi"⟩])
          false false).content.data ∧
     ¬ OccursIn ("clear_memory" : String).data
        (get_system_message (some [⟨"id1", "likes tea"⟩]) (some [⟨"user", "hi"⟩])
          false false).content.data) ∧
    OccursIn [optAdd, optUpdate, optDelete, optClear]
      (systemPromptLines (some [⟨"id1", "likes tea"⟩]) (some [⟨"user", "hi"⟩]) true true) :=
  c9_option_mentions (some [⟨"id1", "likes tea"⟩]) (some [⟨"user", "hi"⟩])
    (by decide) (by decide)
